import Mathlib

/-!
Verification of the soroban-debugger repository against its specification.

The budget inspector (`src/src/inspector/budget.rs`) and the TUI rendering
(`src/src/ui/tui.rs`) are embedded from the source.  The execution engine,
execution state, call-stack tracker and breakpoint registry are not present
under `src/` (only their caller, the TUI, is), so they are modelled from the
specification's component design (spec sections 4.1 to 4.3).

Machine integers (`u64`) are modelled as `Nat`; the claims never exercise
overflow.  Rust `f64` percentage arithmetic is modelled exactly over `ℚ`,
matching the spec's "within floating-point rounding" reading.  Fallible host
queries (`Result<u64>`) are modelled as `Except Unit Nat`.
-/

namespace SorobanDebugger

/-! ## Budget inspector (`src/src/inspector/budget.rs`) -/

/-- Structure `BudgetInfo` from budget.rs: the immutable budget snapshot with four `u64`
fields. -/
structure BudgetInfo where
  cpu_instructions : Nat
  cpu_limit : Nat
  memory_bytes : Nat
  memory_limit : Nat
  deriving Repr, DecidableEq

/-- Method `BudgetInfo::cpu_percentage`: `0.0` when `cpu_limit == 0`, otherwise
`(cpu_instructions as f64 / cpu_limit as f64) * 100.0`, modelled exactly
over `ℚ`. -/
def BudgetInfo.cpu_percentage (b : BudgetInfo) : ℚ :=
  if b.cpu_limit = 0 then 0
  else ((b.cpu_instructions : ℚ) / (b.cpu_limit : ℚ)) * 100

/-- Method `BudgetInfo::memory_percentage`: `0.0` when `memory_limit == 0`, otherwise
`(memory_bytes as f64 / memory_limit as f64) * 100.0`, modelled exactly
over `ℚ`. -/
def BudgetInfo.memory_percentage (b : BudgetInfo) : ℚ :=
  if b.memory_limit = 0 then 0
  else ((b.memory_bytes : ℚ) / (b.memory_limit : ℚ)) * 100

/-- The host's budget interface as consumed by `BudgetInspector::get_cpu_usage`:
`get_cpu_insns_consumed` and `get_mem_bytes_consumed` are fallible
(`Result<u64>` in the host API), the two limit getters are infallible. -/
structure Host where
  cpu_insns_consumed : Except Unit Nat
  cpu_insns_limit : Nat
  mem_bytes_consumed : Except Unit Nat
  mem_bytes_limit : Nat
  deriving Repr

/-- Rust's `Result::unwrap_or`. -/
def exceptUnwrapOr (r : Except Unit Nat) (d : Nat) : Nat :=
  match r with
  | .ok v => v
  | .error _ => d

/-- Function `BudgetInspector::get_cpu_usage(host)`: reads the four counters from the
host's budget, substituting `0` for a failed consumed-counter query
(`unwrap_or(0)`).  The source takes `&Host` (a shared borrow), so the host
is returned unchanged: the call is a pure read. -/
def BudgetInspector.get_cpu_usage (host : Host) : BudgetInfo × Host :=
  (⟨exceptUnwrapOr host.cpu_insns_consumed 0,
    host.cpu_insns_limit,
    exceptUnwrapOr host.mem_bytes_consumed 0,
    host.mem_bytes_limit⟩,
   host)

/-- The warning flags computed by `BudgetInspector::display`: a CPU warning
iff `cpu_percentage() > 80.0`, a memory warning iff
`memory_percentage() > 80.0`. -/
structure BudgetWarnings where
  cpuWarning : Bool
  memWarning : Bool
  deriving Repr, DecidableEq

/-- The warning decisions of `BudgetInspector::display(host)`: it first calls
`get_cpu_usage`, then flags each warning by comparing the percentage
against `80.0`. -/
def BudgetInspector.display (host : Host) : BudgetWarnings :=
  let info := (BudgetInspector.get_cpu_usage host).1
  { cpuWarning := decide (info.cpu_percentage > 80)
    memWarning := decide (info.memory_percentage > 80) }

/-! ## TUI storage rendering (`src/src/ui/tui.rs`, `render_breakpoint_hit`)

Rust strings are UTF-8 encoded; `entry.len()` counts bytes and `&entry[..65]`
panics unless byte offset 65 is a UTF-8 character boundary.  A panicking
render is modelled as `none`. -/

/-- The UTF-8 encoding of a single character, as the byte list Rust stores.
`c.toNat` is the Unicode scalar value. -/
def utf8EncodeChar (c : Char) : List Nat :=
  let n := c.toNat
  if n < 0x80 then [n]
  else if n < 0x800 then [0xC0 + n / 64, 0x80 + n % 64]
  else if n < 0x10000 then
    [0xE0 + n / 4096, 0x80 + (n / 64) % 64, 0x80 + n % 64]
  else
    [0xF0 + n / 262144, 0x80 + (n / 4096) % 64, 0x80 + (n / 64) % 64,
     0x80 + n % 64]

/-- The UTF-8 byte representation of a string (what Rust's `str` stores and
`len()` measures). -/
def utf8Bytes (s : String) : List Nat :=
  s.data.flatMap utf8EncodeChar

/-- Rust's `str::is_char_boundary(i)`: true at 0 and at the length, false
beyond the length, and otherwise true iff the byte at `i` is not a UTF-8
continuation byte (`0x80..=0xBF`). -/
def isCharBoundary (bs : List Nat) (i : Nat) : Bool :=
  if i = 0 then true
  else if h : i < bs.length then
    decide (bs.get ⟨i, h⟩ < 0x80 ∨ 0xC0 ≤ bs.get ⟨i, h⟩)
  else decide (i = bs.length)

/-- One storage line of `render_breakpoint_hit`: the entry
`format!("{} = {}", key, val)`; if it is longer than 68 bytes it is sliced
as `&entry[..65]` plus `"..."`.  The slice panics (`none`) when byte 65 is
not a character boundary. -/
def renderEntryLine (key val : String) : Option (List Nat) :=
  let entry := utf8Bytes (key ++ " = " ++ val)
  if entry.length > 68 then
    if isCharBoundary entry 65 then some (entry.take 65 ++ utf8Bytes "...")
    else none
  else some entry

/-- The storage section of `render_breakpoint_hit`: collect the keys, sort
them, take the first 5, and render each `key = value` line.  `none` when any
line's truncation slice panics. -/
def renderStorageLines (storage : List (String × String)) :
    Option (List (List Nat)) :=
  let keys := (storage.map Prod.fst).insertionSort (· ≤ ·)
  (keys.take 5).mapM fun k =>
    match storage.lookup k with
    | some v => renderEntryLine k v
    | none => none

/-- A storage value whose `key = value` entry (with key `"k"`) is 69 bytes
long with the two-byte character `é` straddling byte offset 65. -/
def c10FailingValue : String :=
  String.mk (List.replicate 60 'a' ++ ('é' :: ['x', 'y', 'z']))

/-! ## Execution engine, state, call stack and breakpoint registry

These components live in the repository but not under `src/` (only their
caller, the TUI, is present), so they are modelled from spec sections
4.1 to 4.3 and 3. -/

/-- Modelled from the spec: `Frame` (spec section 3; the engine source file
is missing from `src/`) — one active contract-function invocation: function
name and argument summary. -/
structure Frame where
  function : String
  args : String
  deriving Repr, DecidableEq

/-- Modelled from the spec: `ExecutionState` (spec section 3; the engine
source file is missing from `src/`) — pause flag, monotone step counter,
current function/args, and the call stack (innermost frame first). -/
structure ExecutionState where
  paused : Bool
  step_count : Nat
  current_function : Option String
  current_args : Option String
  call_stack : List Frame
  deriving Repr, DecidableEq

/-- Modelled from the spec: `BreakpointRegistry` (spec section 4.2; the
registry source file is missing from `src/`) — a set of function names. -/
structure BreakpointRegistry where
  names : List String
  deriving Repr, DecidableEq

/-- Modelled from the spec: `add(name)` — idempotent insert. -/
def BreakpointRegistry.add (r : BreakpointRegistry) (n : String) :
    BreakpointRegistry :=
  if n ∈ r.names then r else ⟨n :: r.names⟩

/-- Modelled from the spec: `remove(name) -> bool` — true iff present;
removal deletes the name from the set. -/
def BreakpointRegistry.remove (r : BreakpointRegistry) (n : String) :
    Bool × BreakpointRegistry :=
  (decide (n ∈ r.names), ⟨r.names.filter (fun m => decide (m ≠ n))⟩)

/-- Modelled from the spec: `list()` — stable, sorted name sequence for
deterministic display. -/
def BreakpointRegistry.list (r : BreakpointRegistry) : List String :=
  r.names.insertionSort (· ≤ ·)

/-- Modelled from the spec: the host's callback events during one
invocation, delivered synchronously and in order (spec sections 4.1 and 5):
function entry, function exit, or a host execution fault. -/
inductive Event where
  | call (fn : String) (args : String)
  | ret
  | fault
  deriving Repr, DecidableEq

/-- Modelled from the spec: the outcome of driving the host — suspended at a
pause point with the rest of the trace pending, completed, or faulted with
the call stack captured at the moment of failure (spec section 4.1, failure
semantics). -/
inductive RunResult where
  | rPaused (st : ExecutionState) (pending : List Event)
  | rCompleted (st : ExecutionState)
  | rFaulted (st : ExecutionState) (captured : List Frame)
  deriving Repr, DecidableEq

/-- The execution state carried by a `RunResult`. -/
def RunResult.stateOf : RunResult → ExecutionState
  | .rPaused st _ => st
  | .rCompleted st => st
  | .rFaulted st _ => st

/-- Modelled from the spec: the controller's callback hooks (spec section
4.1, callback protocol; the engine source file is missing from `src/`).
Entry pushes a frame, records current function/args, and suspends when
single-stepping (call-boundary step granularity, spec section 8 end-to-end
property) or on a breakpoint match; exit pops the top frame; a fault clears
pause state, resets the stack, and reports the captured stack; an exhausted
trace is the completed invocation (pause state cleared). -/
def runEvents (bps : List String) (singleStep : Bool)
    (st : ExecutionState) : List Event → RunResult
  | [] => .rCompleted { st with paused := false, current_function := none,
                                current_args := none }
  | .call fn args :: rest =>
      let st' := { st with call_stack := ⟨fn, args⟩ :: st.call_stack,
                           current_function := some fn,
                           current_args := some args }
      if singleStep || bps.contains fn then
        .rPaused { st' with paused := true } rest
      else runEvents bps singleStep st' rest
  | .ret :: rest =>
      runEvents bps singleStep { st with call_stack := st.call_stack.tail } rest
  | .fault :: _ =>
      .rFaulted { st with paused := false, call_stack := [],
                          current_function := none, current_args := none }
        st.call_stack

/-- Modelled from the spec: the engine's usage and host-fault errors (spec
section 7). -/
inductive EngineError where
  | AlreadyRunning
  | NotPaused
  | HostFault (captured : List Frame)
  deriving Repr, DecidableEq

/-- Modelled from the spec: a debug session — the engine owns the execution
state, the breakpoint registry, and (while paused) the pending remainder of
the host's event trace (spec section 4.1). -/
structure Session where
  exec : ExecutionState
  breakpoints : BreakpointRegistry
  pending : List Event
  deriving Repr, DecidableEq

/-- The caller-visible result of a run: `ok` on pause or completion, an
error carrying the captured stack on a host fault. -/
def runResultValue : RunResult → Except EngineError Unit
  | .rPaused _ _ => .ok ()
  | .rCompleted _ => .ok ()
  | .rFaulted _ captured => .error (.HostFault captured)

/-- Folding a run outcome back into the session: a pause retains the pending
trace; completion and faults clear it. -/
def applyRunResult (s : Session) : RunResult → Session
  | .rPaused st pending => { s with exec := st, pending := pending }
  | .rCompleted st => { s with exec := st, pending := [] }
  | .rFaulted st _ => { s with exec := st, pending := [] }

/-- Modelled from the spec: the fresh execution state installed when
`execute` begins a new invocation — empty call stack (depth 0), no current
function, not paused (spec sections 4.1 and 4.3). -/
def executeInitial (st : ExecutionState) : ExecutionState :=
  { st with call_stack := [], current_function := none,
            current_args := none, paused := false }

/-- Modelled from the spec: `execute(function, args)` (spec section 4.1; the
engine source file is missing from `src/`).  A paused session rejects a new
invocation with `AlreadyRunning`, state unchanged.  Otherwise the host's
entry callback for `function` itself is the first event of the trace, and
the hooks run until a pause, completion, or fault. -/
def DebuggerEngine.execute (s : Session) (fn args : String)
    (evs : List Event) : Except EngineError Unit × Session :=
  if s.exec.paused then (.error .AlreadyRunning, s)
  else
    let r := runEvents s.breakpoints.names false (executeInitial s.exec)
      (.call fn args :: evs)
    (runResultValue r, applyRunResult s r)

/-- Modelled from the spec: `step()` (spec section 4.1; the engine source
file is missing from `src/`).  Requires `paused == true` (else `NotPaused`,
state unchanged); increments `step_count` by exactly 1 per call regardless
of outcome, then advances the pending trace in single-step mode, re-pausing
at the next call boundary unless the invocation completes or faults. -/
def DebuggerEngine.step (s : Session) : Except EngineError Unit × Session :=
  if s.exec.paused then
    let st0 := { s.exec with paused := false,
                             step_count := s.exec.step_count + 1 }
    let r := runEvents s.breakpoints.names true st0 s.pending
    (runResultValue r, applyRunResult s r)
  else (.error .NotPaused, s)

/-- Modelled from the spec: `continue_execution()` (spec section 4.1; the
engine source file is missing from `src/`).  Requires `paused == true` (else
`NotPaused`, state unchanged); resumes the pending trace until the next
breakpoint match, completion, or fault. -/
def DebuggerEngine.continue_execution (s : Session) :
    Except EngineError Unit × Session :=
  if s.exec.paused then
    let r := runEvents s.breakpoints.names false { s.exec with paused := false }
      s.pending
    (runResultValue r, applyRunResult s r)
  else (.error .NotPaused, s)

/-- Modelled from the spec: the Execution State invariant (spec section 3) —
whenever `paused == true`, `current_function` is `Some` of the top frame's
function name. -/
def pausedInv (st : ExecutionState) : Prop :=
  st.paused = true →
    ∃ fr rest, st.call_stack = fr :: rest ∧
      st.current_function = some fr.function

/-- Modelled from the spec: one Call Stack Tracker operation (spec section
4.3) — `push(frame)` or `pop()`. -/
inductive StackOp where
  | push (f : Frame)
  | pop
  deriving Repr, DecidableEq

/-- Applying one stack operation: push conses a frame, pop removes the top
(the host's entry/exit pairing guarantees pop never sees an empty stack). -/
def applyOp (st : List Frame) : StackOp → List Frame
  | .push f => f :: st
  | .pop => st.tail

/-- Applying a sequence of stack operations in order. -/
def applyOps (ops : List StackOp) (st : List Frame) : List Frame :=
  ops.foldl applyOp st

/-- The number of pushes in a sequence of stack operations. -/
def countPush : List StackOp → Nat
  | [] => 0
  | .push _ :: rest => countPush rest + 1
  | .pop :: rest => countPush rest

/-- The number of pops in a sequence of stack operations. -/
def countPop : List StackOp → Nat
  | [] => 0
  | .push _ :: rest => countPop rest
  | .pop :: rest => countPop rest + 1

/-- A sequence of stack operations matching the host's entry/exit callback
order: no prefix pops more than was pushed. -/
def wellBracketed (ops : List StackOp) : Prop :=
  ∀ k, k ≤ ops.length → countPop (ops.take k) ≤ countPush (ops.take k)

/-- The number of entry callbacks in an event trace. -/
def countCall : List Event → Nat
  | [] => 0
  | .call _ _ :: rest => countCall rest + 1
  | .ret :: rest => countCall rest
  | .fault :: rest => countCall rest

/-- The number of exit callbacks in an event trace. -/
def countRet : List Event → Nat
  | [] => 0
  | .call _ _ :: rest => countRet rest
  | .ret :: rest => countRet rest + 1
  | .fault :: rest => countRet rest

/-- An event trace matching the host's entry/exit callback order: no prefix
has more exits than entries. -/
def wellBracketedTrace (evs : List Event) : Prop :=
  ∀ k, k ≤ evs.length → countRet (evs.take k) ≤ countCall (evs.take k)

end SorobanDebugger

namespace SorobanDebugger

/-! ## Theorems about the budget inspector and the TUI renderer -/

/-- C1: for every `BudgetInfo`, `cpu_percentage()` is `0` when
`cpu_limit == 0` and otherwise `cpu_instructions / cpu_limit * 100`, and
`memory_percentage()` is `0` when `memory_limit == 0` and otherwise
`memory_bytes / memory_limit * 100` (exact rational arithmetic standing in
for f64, within floating-point rounding). -/
theorem budget_percentages_spec (b : BudgetInfo) :
    (b.cpu_limit = 0 → b.cpu_percentage = 0) ∧
    (b.cpu_limit ≠ 0 →
      b.cpu_percentage = (b.cpu_instructions : ℚ) / (b.cpu_limit : ℚ) * 100) ∧
    (b.memory_limit = 0 → b.memory_percentage = 0) ∧
    (b.memory_limit ≠ 0 →
      b.memory_percentage = (b.memory_bytes : ℚ) / (b.memory_limit : ℚ) * 100) := by
  refine ⟨?_, ?_, ?_, ?_⟩ <;> intro h <;>
    simp [BudgetInfo.cpu_percentage, BudgetInfo.memory_percentage, h]

/-- Witness for C1 at the concrete snapshot
`⟨10, 0, 30, 40⟩`: zero CPU limit yields percentage `0`, and the memory
percentage is `30 / 40 * 100`. -/
theorem budget_percentages_spec_witness :
    BudgetInfo.cpu_percentage ⟨10, 0, 30, 40⟩ = 0 ∧
    BudgetInfo.memory_percentage ⟨10, 0, 30, 40⟩ =
      ((30 : Nat) : ℚ) / ((40 : Nat) : ℚ) * 100 :=
  ⟨(budget_percentages_spec ⟨10, 0, 30, 40⟩).1 rfl,
   (budget_percentages_spec ⟨10, 0, 30, 40⟩).2.2.2 (by decide)⟩

/-- C7: `BudgetInspector::display` flags the CPU warning exactly when the
snapshot's `cpu_percentage()` exceeds 80 and the memory warning exactly when
`memory_percentage()` exceeds 80; at or below 80 no warning is flagged. -/
theorem budget_display_warning_iff (h : Host) :
    ((BudgetInspector.display h).cpuWarning = true ↔
      (BudgetInspector.get_cpu_usage h).1.cpu_percentage > 80) ∧
    ((BudgetInspector.display h).memWarning = true ↔
      (BudgetInspector.get_cpu_usage h).1.memory_percentage > 80) := by
  constructor <;> simp [BudgetInspector.display]

/-- C8: `BudgetInspector::get_cpu_usage` is a pure read: the host comes back
unchanged, and every field of the returned `BudgetInfo` is sourced from the
host's current counters at the time of the call (no cache in between). -/
theorem get_cpu_usage_pure_fresh (h : Host) :
    (BudgetInspector.get_cpu_usage h).2 = h ∧
    (BudgetInspector.get_cpu_usage h).1.cpu_instructions =
      exceptUnwrapOr h.cpu_insns_consumed 0 ∧
    (BudgetInspector.get_cpu_usage h).1.cpu_limit = h.cpu_insns_limit ∧
    (BudgetInspector.get_cpu_usage h).1.memory_bytes =
      exceptUnwrapOr h.mem_bytes_consumed 0 ∧
    (BudgetInspector.get_cpu_usage h).1.memory_limit = h.mem_bytes_limit :=
  ⟨rfl, rfl, rfl, rfl, rfl⟩

/-- C9: when the host's consumed-CPU or consumed-memory query fails,
`get_cpu_usage` substitutes `0` for that counter and still returns a
`BudgetInfo`; consequently a reported consumption of `0` cannot be told
apart from a failed counter read. -/
theorem get_cpu_usage_error_to_zero :
    (∀ h : Host, h.cpu_insns_consumed = .error () →
      (BudgetInspector.get_cpu_usage h).1.cpu_instructions = 0) ∧
    (∀ h : Host, h.mem_bytes_consumed = .error () →
      (BudgetInspector.get_cpu_usage h).1.memory_bytes = 0) ∧
    (∃ h₁ h₂ : Host, h₁.cpu_insns_consumed = .ok 0 ∧
      h₂.cpu_insns_consumed = .error () ∧
      (BudgetInspector.get_cpu_usage h₁).1 = (BudgetInspector.get_cpu_usage h₂).1) := by
  refine ⟨?_, ?_, ⟨⟨.ok 0, 5, .ok 7, 9⟩, ⟨.error (), 5, .ok 7, 9⟩, rfl, rfl, rfl⟩⟩ <;>
    · intro h he
      simp [BudgetInspector.get_cpu_usage, exceptUnwrapOr, he]

/-- Witness for C9 at a concrete host whose CPU-consumed query fails: the
returned snapshot reports `0` CPU instructions. -/
theorem get_cpu_usage_error_to_zero_witness :
    (BudgetInspector.get_cpu_usage ⟨.error (), 5, .ok 7, 9⟩).1.cpu_instructions = 0 :=
  get_cpu_usage_error_to_zero.1 ⟨.error (), 5, .ok 7, 9⟩ rfl

/-! ## Theorems about the engine, call stack and registry -/

/-- Folding a run outcome into the session makes the outcome's state the
session's execution state. -/
theorem applyRunResult_exec (s : Session) (r : RunResult) :
    (applyRunResult s r).exec = r.stateOf := by
  cases r <;> rfl

/-- Any state produced by the hook runner satisfies the pause invariant:
pausing happens only at an entry hook, right after the frame was pushed and
`current_function` set to its name; completion and faults clear the pause
flag. -/
theorem runEvents_pausedInv (bps : List String) (ss : Bool)
    (evs : List Event) (st : ExecutionState) :
    pausedInv (runEvents bps ss st evs).stateOf := by
  induction evs generalizing st with
  | nil => simp [runEvents, RunResult.stateOf, pausedInv]
  | cons e rest ih =>
    cases e with
    | call fn args =>
      simp only [runEvents]
      split
      · exact fun _ => ⟨⟨fn, args⟩, st.call_stack, rfl, rfl⟩
      · exact ih _
    | ret => exact ih _
    | fault => simp [runEvents, RunResult.stateOf, pausedInv]

/-- The hook runner never touches the step counter. -/
theorem runEvents_step_count (bps : List String) (ss : Bool)
    (evs : List Event) (st : ExecutionState) :
    ((runEvents bps ss st evs).stateOf).step_count = st.step_count := by
  induction evs generalizing st with
  | nil => rfl
  | cons e rest ih =>
    cases e with
    | call fn args =>
      simp only [runEvents]
      split
      · rfl
      · exact ih _
    | ret => exact ih _
    | fault => rfl

/-- C2: the Execution State invariant — when `paused == true`,
`current_function` is `Some` of the top frame's function name — is preserved
by every engine operation: if it holds before, it holds after `execute`,
`step` and `continue_execution` return (usage errors leave the state
unchanged; pauses, completions and faults re-establish it). -/
theorem engine_paused_invariant (s : Session) (fn args : String)
    (evs : List Event) (h : pausedInv s.exec) :
    pausedInv (DebuggerEngine.execute s fn args evs).2.exec ∧
    pausedInv (DebuggerEngine.step s).2.exec ∧
    pausedInv (DebuggerEngine.continue_execution s).2.exec := by
  refine ⟨?_, ?_, ?_⟩
  · unfold DebuggerEngine.execute
    split
    · exact h
    · rw [applyRunResult_exec]
      exact runEvents_pausedInv _ _ _ _
  · unfold DebuggerEngine.step
    split
    · rw [applyRunResult_exec]
      exact runEvents_pausedInv _ _ _ _
    · exact h
  · unfold DebuggerEngine.continue_execution
    split
    · rw [applyRunResult_exec]
      exact runEvents_pausedInv _ _ _ _
    · exact h

/-- Witness for C2 at a concrete idle session: the invariant holds after
each of the three operations. -/
theorem engine_paused_invariant_witness :
    pausedInv (DebuggerEngine.execute
      ⟨⟨false, 0, none, none, []⟩, ⟨[]⟩, []⟩ "main" "" []).2.exec ∧
    pausedInv (DebuggerEngine.step
      ⟨⟨false, 0, none, none, []⟩, ⟨[]⟩, []⟩).2.exec ∧
    pausedInv (DebuggerEngine.continue_execution
      ⟨⟨false, 0, none, none, []⟩, ⟨[]⟩, []⟩).2.exec :=
  engine_paused_invariant ⟨⟨false, 0, none, none, []⟩, ⟨[]⟩, []⟩ "main" "" []
    (by simp [pausedInv])

/-- C4: `step()` from a paused state increments `step_count` by exactly 1
per call, whatever the outcome (re-pause, completion, or fault). -/
theorem step_increments_step_count (s : Session)
    (h : s.exec.paused = true) :
    (DebuggerEngine.step s).2.exec.step_count = s.exec.step_count + 1 := by
  simp only [DebuggerEngine.step, h, if_true]
  rw [applyRunResult_exec, runEvents_step_count]

/-- Witness for C4 at a concrete paused session: stepping raises the step
count from 3 to 4. -/
theorem step_increments_step_count_witness :
    (DebuggerEngine.step
      ⟨⟨true, 3, some "transfer", some "xs", [⟨"transfer", "xs"⟩]⟩,
       ⟨["transfer"]⟩, [.ret]⟩).2.exec.step_count = 3 + 1 :=
  step_increments_step_count
    ⟨⟨true, 3, some "transfer", some "xs", [⟨"transfer", "xs"⟩]⟩,
     ⟨["transfer"]⟩, [.ret]⟩ rfl

/-- C5: `execute` while paused returns `AlreadyRunning`, and `step` or
`continue_execution` while not paused return `NotPaused`; each usage error
is reported synchronously with the session unchanged. -/
theorem usage_errors_leave_state_unchanged (s : Session) (fn args : String)
    (evs : List Event) :
    (s.exec.paused = true →
      DebuggerEngine.execute s fn args evs = (.error .AlreadyRunning, s)) ∧
    (s.exec.paused = false →
      DebuggerEngine.step s = (.error .NotPaused, s) ∧
      DebuggerEngine.continue_execution s = (.error .NotPaused, s)) := by
  refine ⟨fun h => ?_, fun h => ⟨?_, ?_⟩⟩ <;>
    simp [DebuggerEngine.execute, DebuggerEngine.step,
      DebuggerEngine.continue_execution, h]

/-- Witness for C5: a paused session rejects `execute` with
`AlreadyRunning`, and an idle session rejects `step` and
`continue_execution` with `NotPaused`, in each case unchanged. -/
theorem usage_errors_leave_state_unchanged_witness :
    (DebuggerEngine.execute
      ⟨⟨true, 0, some "f", some "", [⟨"f", ""⟩]⟩, ⟨[]⟩, []⟩ "g" "" [] =
      (.error .AlreadyRunning,
       ⟨⟨true, 0, some "f", some "", [⟨"f", ""⟩]⟩, ⟨[]⟩, []⟩)) ∧
    (DebuggerEngine.step ⟨⟨false, 0, none, none, []⟩, ⟨[]⟩, []⟩ =
      (.error .NotPaused, ⟨⟨false, 0, none, none, []⟩, ⟨[]⟩, []⟩) ∧
     DebuggerEngine.continue_execution
      ⟨⟨false, 0, none, none, []⟩, ⟨[]⟩, []⟩ =
      (.error .NotPaused, ⟨⟨false, 0, none, none, []⟩, ⟨[]⟩, []⟩)) :=
  ⟨(usage_errors_leave_state_unchanged
      ⟨⟨true, 0, some "f", some "", [⟨"f", ""⟩]⟩, ⟨[]⟩, []⟩ "g" "" []).1 rfl,
   (usage_errors_leave_state_unchanged
      ⟨⟨false, 0, none, none, []⟩, ⟨[]⟩, []⟩ "g" "" []).2 rfl⟩

/-- C6: `remove(name)` returns true iff `name` was present; on false the
registry is unchanged, and on true the subsequent `list()` no longer
contains `name`. -/
theorem breakpoint_remove_spec (r : BreakpointRegistry) (n : String) :
    ((r.remove n).1 = true ↔ n ∈ r.names) ∧
    ((r.remove n).1 = false → (r.remove n).2 = r) ∧
    ((r.remove n).1 = true → n ∉ (r.remove n).2.list) := by
  refine ⟨by simp [BreakpointRegistry.remove], fun h => ?_, fun h => ?_⟩
  · simp only [BreakpointRegistry.remove, decide_eq_false_iff_not] at h
    cases r with
    | mk names =>
      simp only [BreakpointRegistry.remove, BreakpointRegistry.mk.injEq]
      refine List.filter_eq_self.mpr fun a ha => ?_
      simp only [decide_eq_true_eq]
      exact fun e => h (e ▸ ha)
  · intro hmem
    simp only [BreakpointRegistry.remove, BreakpointRegistry.list] at hmem
    rw [List.Perm.mem_iff (List.perm_insertionSort _ _)] at hmem
    rcases List.mem_filter.mp hmem with ⟨-, hne⟩
    simp at hne

/-- Witness for C6: removing an absent name returns the registry unchanged,
and after removing a present name `list()` no longer contains it. -/
theorem breakpoint_remove_spec_witness :
    ((BreakpointRegistry.remove ⟨["transfer"]⟩ "log").2 = ⟨["transfer"]⟩) ∧
    ("transfer" ∉ (BreakpointRegistry.remove ⟨["transfer"]⟩ "transfer").2.list) :=
  ⟨(breakpoint_remove_spec ⟨["transfer"]⟩ "log").2.1 (by decide),
   (breakpoint_remove_spec ⟨["transfer"]⟩ "transfer").2.2 (by decide)⟩

/-- Net stack effect of a well-bracketed operation sequence: the final depth
plus the pops equals the initial depth plus the pushes. -/
theorem applyOps_length_add (ops : List StackOp) (st : List Frame)
    (h : ∀ k, k ≤ ops.length →
      countPop (ops.take k) ≤ st.length + countPush (ops.take k)) :
    (applyOps ops st).length + countPop ops = st.length + countPush ops := by
  induction ops generalizing st with
  | nil => simp [applyOps, countPop, countPush]
  | cons op rest ih =>
    cases op with
    | push f =>
      have h' : ∀ k, k ≤ rest.length →
          countPop (rest.take k) ≤ (f :: st).length + countPush (rest.take k) := by
        intro k hk
        have := h (k + 1) (by simpa using Nat.succ_le_succ hk)
        simp only [List.take_succ_cons, countPop, countPush, List.length_cons] at this ⊢
        omega
      have hrec := ih (f :: st) h'
      show (applyOps rest (f :: st)).length + countPop rest =
        st.length + (countPush rest + 1)
      simp only [List.length_cons] at hrec
      omega
    | pop =>
      have h1 := h 1 (by simp)
      simp only [List.take_succ_cons, List.take_zero, countPop, countPush] at h1
      cases st with
      | nil => simp at h1
      | cons x st₂ =>
        have h' : ∀ k, k ≤ rest.length →
            countPop (rest.take k) ≤ st₂.length + countPush (rest.take k) := by
          intro k hk
          have := h (k + 1) (by simpa using Nat.succ_le_succ hk)
          simp only [List.take_succ_cons, countPop, countPush,
            List.length_cons] at this ⊢
          omega
        have hrec := ih st₂ h'
        show (applyOps rest st₂).length + (countPop rest + 1) =
          (x :: st₂).length + countPush rest
        simp only [List.length_cons]
        omega

/-- When the hook runner suspends, the suspended state is flagged paused. -/
theorem runEvents_rPaused_flag (bps : List String) (ss : Bool)
    (evs : List Event) (st st' : ExecutionState) (pend : List Event)
    (hc : runEvents bps ss st evs = .rPaused st' pend) : st'.paused = true := by
  induction evs generalizing st with
  | nil => simp [runEvents] at hc
  | cons e rest ih =>
    cases e with
    | call fn args =>
      simp only [runEvents] at hc
      revert hc
      split
      · intro hc
        cases hc
        rfl
      · exact ih _
    | ret => exact ih _ hc
    | fault => simp [runEvents] at hc

/-- When the hook runner completes a well-bracketed trace, the final depth
plus the exits equals the initial depth plus the entries. -/
theorem runEvents_completed_length (bps : List String) (ss : Bool)
    (evs : List Event) (st st' : ExecutionState)
    (h : ∀ k, k ≤ evs.length →
      countRet (evs.take k) ≤ st.call_stack.length + countCall (evs.take k))
    (hc : runEvents bps ss st evs = .rCompleted st') :
    st'.call_stack.length + countRet evs =
      st.call_stack.length + countCall evs := by
  induction evs generalizing st with
  | nil =>
    simp only [runEvents, RunResult.rCompleted.injEq] at hc
    subst hc
    simp [countRet, countCall]
  | cons e rest ih =>
    cases e with
    | call fn args =>
      simp only [runEvents] at hc
      revert hc
      split
      · intro hc
        cases hc
      · intro hc
        have h' : ∀ k, k ≤ rest.length → countRet (rest.take k) ≤
            ({ st with
                call_stack := ⟨fn, args⟩ :: st.call_stack,
                current_function := some fn,
                current_args := some args }).call_stack.length +
              countCall (rest.take k) := by
          intro k hk
          have := h (k + 1) (by simpa using Nat.succ_le_succ hk)
          simp only [List.take_succ_cons, countRet, countCall,
            List.length_cons] at this ⊢
          omega
        have hrec := ih _ h' hc
        simp only [List.length_cons] at hrec
        show st'.call_stack.length + countRet rest =
          st.call_stack.length + (countCall rest + 1)
        omega
    | ret =>
      have h1 := h 1 (by simp)
      simp only [List.take_succ_cons, List.take_zero, countRet, countCall] at h1
      have h' : ∀ k, k ≤ rest.length → countRet (rest.take k) ≤
          ({ st with
             call_stack := st.call_stack.tail }).call_stack.length +
            countCall (rest.take k) := by
        intro k hk
        have := h (k + 1) (by simpa using Nat.succ_le_succ hk)
        simp only [List.take_succ_cons, countRet, countCall,
          List.length_tail] at this ⊢
        omega
      have hrec := ih _ h' hc
      simp only [List.length_tail] at hrec
      show st'.call_stack.length + (countRet rest + 1) =
        st.call_stack.length + countCall rest
      omega
    | fault => simp [runEvents] at hc

/-- C3: the call-stack depth discipline.  For every push/pop sequence
matching the host's entry/exit callback order, the final depth equals pushes
minus pops and pops never exceed pushes; `execute` starts from depth 0; and
an `execute` over a balanced well-bracketed trace that runs to completion
(result `ok`, not paused) ends at depth 0 — the outermost return empties the
stack. -/
theorem call_stack_depth_spec :
    (∀ ops : List StackOp, wellBracketed ops →
      countPop ops ≤ countPush ops ∧
      (applyOps ops []).length = countPush ops - countPop ops) ∧
    (∀ st : ExecutionState, (executeInitial st).call_stack.length = 0) ∧
    (∀ (s : Session) (fn args : String) (evs : List Event),
      s.exec.paused = false →
      wellBracketedTrace (.call fn args :: evs) →
      countCall (.call fn args :: evs) = countRet (.call fn args :: evs) →
      (DebuggerEngine.execute s fn args evs).1 = .ok () →
      (DebuggerEngine.execute s fn args evs).2.exec.paused = false →
      (DebuggerEngine.execute s fn args evs).2.exec.call_stack.length = 0) := by
  refine ⟨fun ops hwb => ?_, fun st => rfl, ?_⟩
  · have key := applyOps_length_add ops [] (by
      intro k hk
      simpa using hwb k hk)
    have hfull := hwb ops.length le_rfl
    simp only [List.take_length] at hfull
    simp only [List.length_nil] at key
    exact ⟨by omega, by omega⟩
  · intro s fn args evs hp hwb hbal hok hpf
    simp only [DebuggerEngine.execute, hp, Bool.false_eq_true, if_false] at hok hpf ⊢
    generalize hr : runEvents s.breakpoints.names false (executeInitial s.exec)
      (.call fn args :: evs) = r at hok hpf ⊢
    cases r with
    | rPaused stp pend =>
      have hflag := runEvents_rPaused_flag _ _ _ _ _ _ hr
      simp [applyRunResult, hflag] at hpf
    | rCompleted stc =>
      have hlen := runEvents_completed_length _ _ _ _ _ (by
        intro k hk
        simpa [executeInitial] using hwb k hk) hr
      simp only [executeInitial, List.length_nil] at hlen
      simp only [applyRunResult]
      omega
    | rFaulted stf cap =>
      simp [runResultValue] at hok

/-- Witness for C3: a concrete push/push/pop sequence ends at depth
`2 - 1`, a concrete `execute` starts from depth 0, and a concrete balanced
invocation (`main` calling `transfer`, both returning) ends at depth 0. -/
theorem call_stack_depth_spec_witness :
    (countPop [StackOp.push ⟨"main", ""⟩, StackOp.push ⟨"transfer", ""⟩,
        StackOp.pop] ≤
      countPush [StackOp.push ⟨"main", ""⟩, StackOp.push ⟨"transfer", ""⟩,
        StackOp.pop] ∧
     (applyOps [StackOp.push ⟨"main", ""⟩, StackOp.push ⟨"transfer", ""⟩,
        StackOp.pop] []).length =
      countPush [StackOp.push ⟨"main", ""⟩, StackOp.push ⟨"transfer", ""⟩,
        StackOp.pop] -
      countPop [StackOp.push ⟨"main", ""⟩, StackOp.push ⟨"transfer", ""⟩,
        StackOp.pop]) ∧
    (executeInitial ⟨true, 7, some "f", some "a", [⟨"f", "a"⟩]⟩).call_stack.length = 0 ∧
    (DebuggerEngine.execute ⟨⟨false, 0, none, none, []⟩, ⟨[]⟩, []⟩ "main" ""
      [.call "transfer" "x", .ret, .ret]).2.exec.call_stack.length = 0 :=
  ⟨call_stack_depth_spec.1
      [StackOp.push ⟨"main", ""⟩, StackOp.push ⟨"transfer", ""⟩, StackOp.pop]
      (by unfold wellBracketed; decide),
   call_stack_depth_spec.2.1 ⟨true, 7, some "f", some "a", [⟨"f", "a"⟩]⟩,
   call_stack_depth_spec.2.2 ⟨⟨false, 0, none, none, []⟩, ⟨[]⟩, []⟩ "main" ""
      [.call "transfer" "x", .ret, .ret] rfl
      (by unfold wellBracketedTrace; decide) (by decide) rfl rfl⟩

/-- C10 (failing input): with the single storage entry
`("k", c10FailingValue)` the displayed entry `k = ...` is 69 bytes long, so
the truncation branch slices at byte 65, which falls inside the two-byte
character `é`: `render_breakpoint_hit` panics, refuting the claim that it
never does. -/
theorem render_breakpoint_hit_panics_on_straddling_char :
    (utf8Bytes ("k" ++ " = " ++ c10FailingValue)).length = 69 ∧
    isCharBoundary (utf8Bytes ("k" ++ " = " ++ c10FailingValue)) 65 = false ∧
    renderStorageLines [("k", c10FailingValue)] = none := by
  refine ⟨by decide, by decide, by decide⟩

end SorobanDebugger
